import Mathlib

/-!
Shallow embedding of the search core of the Smart-Recipe-Finder app
(`src/App.jsx`) and proofs about it.

JS strings are modelled as `List Char`; JS numbers arising as fuzzy-match
scores are modelled as `Option ℚ` where `none` stands for `Infinity`
(all finite scores in the code are quotients of small naturals, so the
rational model is exact).  Network calls are modelled by a pure
`Fetcher` function; `Except Unit` models a thrown `fetch`/parse error.
-/

namespace RecipeFinder

/-- JS strings, modelled as lists of characters. -/
abbrev Str := List Char

/-- Model of `String.prototype.toLowerCase` (the app only lowercases
basic-latin text, which `Char.toLower` handles). -/
def jsToLower (s : Str) : Str := s.map Char.toLower

/-- Whitespace stripped by `String.prototype.trim` (the characters that
occur in the app's data). -/
def isJsSpace (c : Char) : Bool := c = ' ' || c = '\t' || c = '\n' || c = '\r'

/-- Model of `String.prototype.trim`. -/
def jsTrim (s : Str) : Str :=
  ((s.dropWhile isJsSpace).reverse.dropWhile isJsSpace).reverse

/-- Model of `hay.startsWith(need)` on character lists. -/
def startsWith : Str → Str → Bool
  | _, [] => true
  | [], _ :: _ => false
  | h :: hs, n :: ns => h = n && startsWith hs ns

/-- Model of `hay.includes(need)`: `need` occurs contiguously in `hay`. -/
def listIncludes : Str → Str → Bool
  | [], need => need.isEmpty
  | c :: rest, need => startsWith (c :: rest) need || listIncludes rest need

/-- Substitution cost used when filling cell `(i+1, j+1)` of the
Levenshtein matrix: `a[i] === b[j] ? 0 : 1` (App.jsx line 135). -/
def levCost (a b : Str) (i j : Nat) : Nat :=
  if a[i]? = b[j]? then 0 else 1

/-- Row `i + 1` of the Levenshtein matrix, given row `i` as `prev`:
cell `0` is the initialised first column, cell `j + 1` is
`min(matrix[i][j+1] + 1, matrix[i+1][j] + 1, matrix[i][j] + cost)`
(App.jsx lines 131-141). -/
def levRow (a b : Str) (prev : Nat → Nat) (i : Nat) : Nat → Nat
  | 0 => i + 1
  | j + 1 =>
    min (prev (j + 1) + 1)
      (min (levRow a b prev i j + 1)
        (prev j + levCost a b i j))

/-- Entry `(i, j)` of the dynamic-programming matrix built by
`levenshtein` (App.jsx lines 128-142): row `0` is the initialised
first row `matrix[0][j] = j`, and each later row is filled by
`levRow` from the previous one. -/
def levMatrix (a b : Str) : Nat → Nat → Nat
  | 0 => fun j => j
  | i + 1 => levRow a b (levMatrix a b i) i

/-- The matrix entries satisfy the textbook fill recurrence
`matrix[i][j] = min(matrix[i-1][j] + 1, matrix[i][j-1] + 1,
matrix[i-1][j-1] + cost)` that the source loop computes. -/
theorem levMatrix_succ_succ (a b : Str) (i j : Nat) :
    levMatrix a b (i + 1) (j + 1) =
      min (levMatrix a b i (j + 1) + 1)
        (min (levMatrix a b (i + 1) j + 1)
          (levMatrix a b i j + levCost a b i j)) := rfl

theorem levMatrix_zero (a b : Str) (j : Nat) : levMatrix a b 0 j = j := rfl

theorem levMatrix_succ_zero (a b : Str) (i : Nat) :
    levMatrix a b (i + 1) 0 = i + 1 := rfl

/-- Model of `levenshtein` (App.jsx lines 123-144): empty-string
short-circuits, then the full DP table over the lowercased strings. -/
def levenshtein (a b : Str) : Nat :=
  if a = [] then b.length
  else if b = [] then a.length
  else
    let a2 := jsToLower a
    let b2 := jsToLower b
    levMatrix a2 b2 a2.length b2.length

/-- Model of `scoreMatch` (App.jsx lines 147-155).  `none` is the JS
`Infinity`; the finite case `dist / Math.max(t.length, 1)` is the exact
rational value of that quotient, written with `mkRat` so that the kernel
can evaluate it (`mkRat n d = n / d` over `ℚ` by `Rat.mkRat_eq_div`). -/
def scoreMatch (query target : Str) : Option ℚ :=
  let q := jsToLower (jsTrim query)
  let t := jsToLower (jsTrim target)
  if q = [] || t = [] then none
  else if listIncludes t q then some 0
  else some (mkRat (levenshtein q t) (max t.length 1))

example : levenshtein "cat".data "cart".data = 1 := by decide
example : levenshtein "Sun".data "sun".data = 0 := by decide
example : scoreMatch "chik".data "chicken".data = some (mkRat 3 7) := by
  decide
example : scoreMatch "hick".data "chicken".data = some 0 := by decide
example : scoreMatch "  ".data "chicken".data = none := by decide

/-- Characters produced by `Char.toLower` are fixed by `Char.toLower`. -/
theorem charToLower_idem (c : Char) : c.toLower.toLower = c.toLower := by
  have hval : ∀ (m : Nat) (h : m.isValidChar), (Char.ofNat m).toNat = m := by
    intro m h
    rw [Char.ofNat, dif_pos h]
    rfl
  by_cases h : c.toNat ≥ 65 ∧ c.toNat ≤ 90
  · have hvalid : (c.toNat + 32).isValidChar := Or.inl (by omega)
    have h1 : c.toLower = Char.ofNat (c.toNat + 32) := by
      unfold Char.toLower
      rw [if_pos h]
    have hne : ¬ ((Char.ofNat (c.toNat + 32)).toNat ≥ 65 ∧
        (Char.ofNat (c.toNat + 32)).toNat ≤ 90) := by
      rw [hval _ hvalid]
      omega
    rw [h1]
    unfold Char.toLower
    rw [if_neg hne]
  · have h1 : c.toLower = c := by
      unfold Char.toLower
      rw [if_neg h]
    rw [h1, h1]

/-- Lowercasing is idempotent on strings. -/
theorem jsToLower_idem (s : Str) : jsToLower (jsToLower s) = jsToLower s := by
  simp [jsToLower, List.map_map, Function.comp_def, charToLower_idem]

/-!
Ordering of scores.  The app sorts score records with
`sort((a, b) => a.score - b.score)`: a finite difference below zero puts
`a` first, `Infinity - Infinity` is `NaN`, which `Array.prototype.sort`
treats as `0` (elements compare equal, and the sort is stable, so their
relative order is kept).  `scoreLE a b` is true exactly when the
comparator does not require `b` before `a`.
-/

/-- Comparator order on scores (`none` = `Infinity`, larger than every
finite score and tied with itself). -/
def scoreLE : Option ℚ → Option ℚ → Bool
  | none, none => true
  | none, some _ => false
  | some _, none => true
  | some x, some y => x ≤ y

/-- Model of `score < bound` on a possibly-infinite score
(`Infinity < bound` is false). -/
def scoreLt (s : Option ℚ) (bound : ℚ) : Bool :=
  match s with
  | none => false
  | some x => x < bound

theorem scoreLE_refl (s : Option ℚ) : scoreLE s s := by
  cases s <;> simp [scoreLE]

theorem scoreLE_trans (a b c : Option ℚ) (hab : scoreLE a b)
    (hbc : scoreLE b c) : scoreLE a c := by
  cases a <;> cases b <;> cases c <;> simp_all [scoreLE]
  exact le_trans hab hbc

theorem scoreLE_total (a b : Option ℚ) : scoreLE a b || scoreLE b a := by
  cases a <;> cases b <;> simp [scoreLE, le_total]

/-- The comparator order on `(string, score)` records sorted by the app:
`a` may stay before `b` exactly when the comparator
`(a, b) => a.score - b.score` does not demand `b` first. -/
def pairLE (a b : Str × Option ℚ) : Prop := scoreLE a.2 b.2 = true

instance : DecidableRel pairLE := fun a b =>
  instDecidableEqBool (scoreLE a.2 b.2) true

instance : IsTotal (Str × Option ℚ) pairLE :=
  ⟨fun a b => by
    have h := scoreLE_total a.2 b.2
    rcases Bool.or_eq_true_iff.mp h with h1 | h1
    · exact Or.inl h1
    · exact Or.inr h1⟩

instance : IsTrans (Str × Option ℚ) pairLE :=
  ⟨fun a b c hab hbc => scoreLE_trans a.2 b.2 c.2 hab hbc⟩

/-!
Meals, set intersection and deduplication.
-/

/-- Model of the meal summary records returned by the filter endpoints;
only the fields the search core reads are kept. -/
structure Meal where
  idMeal : Str
  strMeal : Str
deriving DecidableEq, Repr

/-- Model of `intersectById` (App.jsx lines 175-181): `reduce` with no
initial value returns `[]` on an empty array, the single element on a
one-element array, and otherwise folds the tail from the head;
`acc.filter(m => set.has(m.idMeal))` keeps the entries of `acc` whose id
occurs in the other list. -/
def intersectById (arrays : List (List Meal)) : List Meal :=
  match arrays with
  | [] => []
  | first :: rest =>
    rest.foldl
      (fun acc curr => acc.filter (fun m => (curr.map Meal.idMeal).contains m.idMeal))
      first

example : intersectById [] = [] := by decide
example :
    intersectById
      [[⟨"1".data, "a".data⟩, ⟨"2".data, "b".data⟩, ⟨"3".data, "c".data⟩],
        [⟨"2".data, "x".data⟩, ⟨"3".data, "y".data⟩, ⟨"4".data, "z".data⟩]] =
      [⟨"2".data, "b".data⟩, ⟨"3".data, "c".data⟩] := by decide

/-- One `map.set(key, value)` step on a JS `Map` modelled as an
insertion-ordered association list: an existing key keeps its position
and gets the new value, a new key is appended. -/
def mapSet {α : Type} (m : List (Str × α)) (k : Str) (v : α) :
    List (Str × α) :=
  if (m.lookup k).isSome then
    m.map (fun p => if p.1 = k then (k, v) else p)
  else m ++ [(k, v)]

/-- Deduplication by id as done in `handleSearch` (App.jsx lines
400-403): insert every meal into a `Map` keyed by `idMeal` and read the
values back in key-insertion order (last write wins on a duplicate id). -/
def dedupeById (l : List Meal) : List Meal :=
  (l.foldl (fun m mm => mapSet m mm.idMeal mm) []).map Prod.snd

example :
    dedupeById
      [⟨"1".data, "a".data⟩, ⟨"2".data, "b".data⟩, ⟨"1".data, "c".data⟩] =
      [⟨"1".data, "c".data⟩, ⟨"2".data, "b".data⟩] := by decide

/-!
Suggestion pool and live suggestions.
-/

/-- JS `Set` insertion: keep the list deduplicated, first occurrence
wins and keeps its position. -/
def addUnique (acc : List Str) (s : Str) : List Str :=
  if s ∈ acc then acc else acc ++ [s]

/-- Collapse a list to its distinct elements in first-occurrence order
(the iteration order of a JS `Set` filled from the list). -/
def dedupKeepFirst (l : List Str) : List Str :=
  l.foldl addUnique []

/-- The fixed fallback vocabulary of `buildSourceList`
(App.jsx line 292). -/
def fallbackTerms : List Str :=
  ["biryani".data, "pasta".data, "pizza".data, "curry".data, "salad".data,
    "fried rice".data]

/-- Model of `buildSourceList` (App.jsx lines 284-296): a `Set` filled
with trending meal names, category names, area names, cached ingredient
keys and the fallback vocabulary, in that insertion order. -/
def buildSourceList (trending : List Meal) (categories areas : List Str)
    (ingredientKeys : List Str) : List Str :=
  dedupKeepFirst
    (trending.map Meal.strMeal ++ categories ++ areas ++ ingredientKeys ++
      fallbackTerms)

/-- Body of `getSuggestions` after the empty-query guard (App.jsx lines
301-308), over an arbitrary source pool: score, drop non-finite scores,
stable-sort ascending, keep the first 6, project the strings.
`Array.prototype.sort` is specified as a stable sort consistent with the
comparator; it is modelled by the (stable) insertion sort under
`pairLE`, which captures the comparator including its `Infinity`/`NaN`
behaviour. -/
def getSuggestionsFrom (query : Str) (src : List Str) : List Str :=
  ((List.insertionSort pairLE
      ((src.map (fun s => (s, scoreMatch query s))).filter
        (fun x => x.2.isSome))).take 6).map Prod.fst

/-- Model of `getSuggestions` (App.jsx lines 299-309), including the
guard `if (!query || query.trim().length < 1) return []`. -/
def getSuggestions (query : Str) (trending : List Meal)
    (categories areas ingredientKeys : List Str) : List Str :=
  if query = [] || (jsTrim query).length < 1 then []
  else getSuggestionsFrom query
    (buildSourceList trending categories areas ingredientKeys)

example :
    getSuggestionsFrom "piza".data ["pizza".data, "pasta".data, "rice".data] =
      ["pizza".data, "pasta".data, "rice".data] := by decide

/-!
The result cache and the cached fetch.
-/

/-- The three per-filter-kind stores of the module-level `cache` object
(App.jsx lines 29-34; the detail-lookup store is not part of the search
core modelled here). -/
inductive FetchKind
  | ingredient
  | category
  | area
deriving DecidableEq, Repr

/-- The module-level `cache`: one insertion-ordered map per filter kind
(a JS `Map` is modelled as an association list in key-insertion order,
see `mapSet`). -/
structure Cache where
  ingredient : List (Str × List Meal)
  category : List (Str × List Meal)
  area : List (Str × List Meal)
deriving DecidableEq, Repr

def Cache.empty : Cache := ⟨[], [], []⟩

def Cache.store (c : Cache) : FetchKind → List (Str × List Meal)
  | .ingredient => c.ingredient
  | .category => c.category
  | .area => c.area

def Cache.setStore (c : Cache) (k : FetchKind)
    (s : List (Str × List Meal)) : Cache :=
  match k with
  | .ingredient => { c with ingredient := s }
  | .category => { c with category := s }
  | .area => { c with area := s }

/-- The network, modelled as a pure function of the request.  Each URL
the app builds is determined by the `(kind, key)` pair passed to
`fetchListCached`, so a request is identified by that pair.  `.error ()`
models a thrown fetch/parse failure, `.ok none` models a JSON envelope
whose `meals` field is `null`, and `.ok (some meals)` a proper list. -/
def Fetcher : Type := FetchKind → Str → Except Unit (Option (List Meal))

instance {ε α : Type} [DecidableEq ε] [DecidableEq α] :
    DecidableEq (Except ε α)
  | .error x, .error y =>
    if h : x = y then isTrue (by rw [h])
    else isFalse (fun hc => by injection hc with h2; exact h h2)
  | .error _, .ok _ => isFalse (fun hc => by injection hc)
  | .ok _, .error _ => isFalse (fun hc => by injection hc)
  | .ok x, .ok y =>
    if h : x = y then isTrue (by rw [h])
    else isFalse (fun hc => by injection hc with h2; exact h h2)

/-- Result of one `fetchListCached` call: the returned (or thrown)
value, the cache afterwards, and the log of network requests issued
(empty on a cache hit, the single request on a miss). -/
structure FetchOut where
  result : Except Unit (List Meal)
  cache : Cache
  calls : List (FetchKind × Str)
deriving DecidableEq, Repr

/-- Model of `fetchListCached` (App.jsx lines 166-173): return the
stored value on a hit; otherwise fetch, normalize `meals || []`, store
and return.  A thrown fetch propagates before `store.set` runs, so a
failure is not cached. -/
def fetchListCached (f : Fetcher) (kind : FetchKind) (key : Str)
    (c : Cache) : FetchOut :=
  match (c.store kind).lookup key with
  | some v => ⟨.ok v, c, []⟩
  | none =>
    match f kind key with
    | .error e => ⟨.error e, c, [(kind, key)]⟩
    | .ok data =>
      let meals := data.getD []
      ⟨.ok meals, c.setStore kind (mapSet (c.store kind) key meals),
        [(kind, key)]⟩

/-!
The search orchestrator `handleSearch` (App.jsx lines 350-434).

The model takes the component state read by a search invocation
(`ingredientInput`/`term`, the selected category and area, and the
`trending`, `categories`, `areas` state used for fallback and for the
suggestion pool) plus the cache, and returns the observable outcome:
the argument of the `setResults` call if one happens (`none` models a
failed search, which never calls `setResults`), the final error
message (`setError`), the cache afterwards, and the log of network
requests.  The concurrent `Promise.all` fetches are modelled
sequentially: the joint await is fail-fast either way, and no claim
depends on cache writes made by fetches that settle after the first
failure.
-/

/-- Model of JS `split(",")` (a non-empty separator, so
`"".split(",")` is `[""]`). -/
def splitOnComma : Str → List Str
  | [] => [[]]
  | c :: rest =>
    let r := splitOnComma rest
    if c = ',' then [] :: r
    else
      match r with
      | [] => [[c]]
      | h :: t => (c :: h) :: t

/-- The ingredient terms of a query: comma-split, trimmed, empty terms
dropped (App.jsx lines 359-362). -/
def searchIngredients (queryTerm : Str) : List Str :=
  ((splitOnComma queryTerm).map jsTrim).filter (fun s => !s.isEmpty)

example : searchIngredients "chicken, garlic".data =
    ["chicken".data, "garlic".data] := by decide
example : searchIngredients "".data = [] := by decide
example : searchIngredients " , ".data = [] := by decide

/-- Fetch the per-ingredient lists one per key (the `Promise.all` at
App.jsx lines 367-376), threading the cache and the request log;
fail-fast on the first failure. -/
def fetchIngredientLists (f : Fetcher) (keys : List Str) (c : Cache) :
    Except Unit (List (List Meal)) × Cache × List (FetchKind × Str) :=
  match keys with
  | [] => (.ok [], c, [])
  | k :: rest =>
    let r := fetchListCached f .ingredient k c
    match r.result with
    | .error e => (.error e, r.cache, r.calls)
    | .ok v =>
      match fetchIngredientLists f rest r.cache with
      | (.error e, c2, n2) => (.error e, c2, r.calls ++ n2)
      | (.ok vs, c2, n2) => (.ok (v :: vs), c2, r.calls ++ n2)

/-- The final combination step (App.jsx lines 390-398): no filter lists
means the trending fallback, one list is used directly, several lists
are intersected. -/
def combineLists (lists : List (List Meal)) (trending : List Meal) :
    List Meal :=
  match lists with
  | [] => trending
  | [l] => l
  | _ => intersectById lists

/-- The component state a search invocation reads. -/
structure SearchIn where
  queryTerm : Str
  selectedCategory : Str
  selectedArea : Str
  trending : List Meal
  categories : List Str
  areas : List Str
deriving DecidableEq, Repr

/-- The observable outcome of one `handleSearch` invocation. -/
structure SearchOutcome where
  published : Option (List Meal)
  errorMsg : Str
  cache : Cache
  calls : List (FetchKind × Str)
deriving DecidableEq, Repr

def failMsg : Str := "Something went wrong. Please try again.".data

def noResultsMsg : Str := "No recipes found. Try different filters.".data

/-- The "did you mean" message (App.jsx lines 421-423). -/
def didYouMeanMsg (queryTerm best : Str) : Str :=
  "No results for \"".data ++ queryTerm ++
    "\". Did you mean \"".data ++ best ++
    "\"? Click the suggestion to search.".data

/-- The 0.4 correction threshold, an exact rational.  (The JS double
`0.4` and the rational `2/5` order the scores arising here
identically: the scores are small-denominator rationals, whose nearest
doubles are ordered like the rationals themselves.) -/
def correctionThreshold : ℚ := mkRat 2 5

/-- The suggestion pool a search invocation builds on an empty result:
`buildSourceList()` read with the component state and the ingredient
cache keys at that moment (App.jsx line 408). -/
def searchPool (inp : SearchIn) (c : Cache) : List Str :=
  buildSourceList inp.trending inp.categories inp.areas
    (c.ingredient.map Prod.fst)

/-- The `scored` list of the empty-result flow (App.jsx lines
409-411): every pool candidate scored against the raw query text and
stable-sorted by ascending score (no finiteness filter here, unlike
`getSuggestions`). -/
def rankedCandidates (inp : SearchIn) (c : Cache) :
    List (Str × Option ℚ) :=
  List.insertionSort pairLE
    ((searchPool inp c).map (fun s => (s, scoreMatch inp.queryTerm s)))

/-- The publish phase of `handleSearch` (App.jsx lines 390-427),
reached when every fetch settled successfully: combine, deduplicate,
publish, and on an empty result compute the "did you mean" correction
from the suggestion pool (scored against the raw query text). -/
def publishPhase (inp : SearchIn) (c : Cache)
    (calls : List (FetchKind × Str)) (lists : List (List Meal)) :
    SearchOutcome :=
  let merged := combineLists lists inp.trending
  let deduped := dedupeById merged
  if deduped.isEmpty then
    match (rankedCandidates inp c).head? with
    | some best =>
      if scoreLt best.2 correctionThreshold &&
          !(jsToLower best.1 == jsToLower inp.queryTerm) then
        ⟨some deduped, didYouMeanMsg inp.queryTerm best.1, c, calls⟩
      else ⟨some deduped, noResultsMsg, c, calls⟩
    | none => ⟨some deduped, noResultsMsg, c, calls⟩
  else ⟨some deduped, [], c, calls⟩

/-- Model of `handleSearch` (App.jsx lines 350-434). -/
def handleSearch (f : Fetcher) (inp : SearchIn) (c : Cache) :
    SearchOutcome :=
  let ingredients := searchIngredients inp.queryTerm
  let afterIng : Except Unit (List (List Meal)) × Cache ×
      List (FetchKind × Str) :=
    if ingredients.isEmpty then (.ok [], c, [])
    else
      match fetchIngredientLists f (ingredients.map jsToLower) c with
      | (.error e, c1, n1) => (.error e, c1, n1)
      | (.ok ls, c1, n1) => (.ok [intersectById ls], c1, n1)
  match afterIng with
  | (.error _, c1, n1) => ⟨none, failMsg, c1, n1⟩
  | (.ok lists0, c1, n1) =>
    let afterCat : Except Unit (List (List Meal)) × Cache ×
        List (FetchKind × Str) :=
      if inp.selectedCategory.isEmpty then (.ok lists0, c1, n1)
      else
        let r := fetchListCached f .category inp.selectedCategory c1
        match r.result with
        | .error e => (.error e, r.cache, n1 ++ r.calls)
        | .ok v => (.ok (lists0 ++ [v]), r.cache, n1 ++ r.calls)
    match afterCat with
    | (.error _, c2, n2) => ⟨none, failMsg, c2, n2⟩
    | (.ok lists1, c2, n2) =>
      let afterArea : Except Unit (List (List Meal)) × Cache ×
          List (FetchKind × Str) :=
        if inp.selectedArea.isEmpty then (.ok lists1, c2, n2)
        else
          let r := fetchListCached f .area inp.selectedArea c2
          match r.result with
          | .error e => (.error e, r.cache, n2 ++ r.calls)
          | .ok v => (.ok (lists1 ++ [v]), r.cache, n2 ++ r.calls)
      match afterArea with
      | (.error _, c3, n3) => ⟨none, failMsg, c3, n3⟩
      | (.ok lists, c3, n3) => publishPhase inp c3 n3 lists

/-- The states of §4.5 of the spec, read off from the observable
outcome: a search that never published is `Failed`; a published empty
list is one of the two empty states, distinguished by the message; a
published non-empty list is `Succeeded`. -/
inductive SearchState
  | Succeeded
  | EmptyWithSuggestion
  | EmptyNoSuggestion
  | Failed
deriving DecidableEq, Repr

def stateOf (o : SearchOutcome) : SearchState :=
  match o.published with
  | none => .Failed
  | some r =>
    if r.isEmpty then
      if o.errorMsg = noResultsMsg then .EmptyNoSuggestion
      else .EmptyWithSuggestion
    else .Succeeded

/-!
Properties of the Levenshtein matrix.
-/

theorem levCost_symm (a b : Str) (i j : Nat) :
    levCost a b i j = levCost b a j i := by
  simp [levCost, eq_comm]

theorem levMatrix_symm (a b : Str) :
    ∀ i j, levMatrix a b i j = levMatrix b a j i := by
  intro i
  induction i with
  | zero =>
    intro j
    cases j <;> rfl
  | succ i ih =>
    intro j
    induction j with
    | zero => rfl
    | succ j ihj =>
      rw [levMatrix_succ_succ, levMatrix_succ_succ, ih (j + 1), ihj, ih j,
        levCost_symm, min_left_comm]

theorem levMatrix_self_diag (a : Str) : ∀ i, levMatrix a a i i = 0 := by
  intro i
  induction i with
  | zero => rfl
  | succ i ih =>
    rw [levMatrix_succ_succ, ih]
    simp [levCost]

theorem levenshtein_nil_left (b : Str) : levenshtein [] b = b.length := rfl

theorem levenshtein_nil_right (a : Str) : levenshtein a [] = a.length := by
  cases a <;> simp [levenshtein]

theorem levenshtein_self (a : Str) : levenshtein a a = 0 := by
  cases a with
  | nil => rfl
  | cons c s => simp [levenshtein, levMatrix_self_diag]

theorem levenshtein_symm (a b : Str) : levenshtein a b = levenshtein b a := by
  cases a with
  | nil => rw [levenshtein_nil_left, levenshtein_nil_right]
  | cons x s =>
    cases b with
    | nil => rw [levenshtein_nil_left, levenshtein_nil_right]
    | cons y t => simp [levenshtein, levMatrix_symm]

/-- C8: the edit-distance function is symmetric, `levenshtein(a, a)` is
`0` for every string, and both empty-string edge cases short-circuit to
the other string's length. -/
theorem C8_levenshtein_symm_self_nil :
    (∀ a b : Str, levenshtein a b = levenshtein b a) ∧
    (∀ a : Str, levenshtein a a = 0) ∧
    (∀ b : Str, levenshtein [] b = b.length) ∧
    (∀ a : Str, levenshtein a [] = a.length) :=
  ⟨levenshtein_symm, levenshtein_self, levenshtein_nil_left,
    levenshtein_nil_right⟩

/-!
The score function (claim C2).
-/

theorem jsToLower_eq_nil_iff (s : Str) : jsToLower s = [] ↔ s = [] := by
  simp [jsToLower]

theorem jsToLower_length (s : Str) : (jsToLower s).length = s.length := by
  simp [jsToLower]

/-- The edit distance already case-folds, so lowercasing its arguments
does not change it. -/
theorem levenshtein_jsToLower (a b : Str) :
    levenshtein (jsToLower a) (jsToLower b) = levenshtein a b := by
  by_cases ha : a = []
  · subst ha
    simp [levenshtein_nil_left, jsToLower, jsToLower_length]
  · by_cases hb : b = []
    · subst hb
      simp [levenshtein_nil_right, jsToLower, jsToLower_length]
    · have ha2 : jsToLower a ≠ [] := fun h => ha ((jsToLower_eq_nil_iff a).mp h)
      have hb2 : jsToLower b ≠ [] := fun h => hb ((jsToLower_eq_nil_iff b).mp h)
      simp only [levenshtein, if_neg ha, if_neg hb, if_neg ha2, if_neg hb2,
        jsToLower_idem]

/-- C2 (amended): for query and candidate strings carrying no
leading/trailing whitespace, `score` is `Infinity` exactly when one of
them is empty; it is `0` when the non-empty candidate case-insensitively
contains the query; and otherwise it is the case-folded Levenshtein
distance divided by `max(length(candidate), 1)`.  (On untrimmed inputs
the code first trims both strings; see `C2_counterexample`.) -/
theorem C2_score_formula_on_trimmed (q t : Str)
    (hq : jsTrim q = q) (ht : jsTrim t = t) :
    (scoreMatch q t = none ↔ (q = [] ∨ t = [])) ∧
    (q ≠ [] → t ≠ [] → listIncludes (jsToLower t) (jsToLower q) = true →
      scoreMatch q t = some 0) ∧
    (q ≠ [] → t ≠ [] → listIncludes (jsToLower t) (jsToLower q) = false →
      scoreMatch q t =
        some ((levenshtein q t : ℚ) / (max t.length 1 : ℚ))) := by
  refine ⟨?_, ?_, ?_⟩
  · simp only [scoreMatch, hq, ht]
    split_ifs with h1 h2
    · simp only [Bool.or_eq_true, decide_eq_true_eq,
        jsToLower_eq_nil_iff] at h1
      simp [h1]
    · simp only [Bool.or_eq_true, decide_eq_true_eq,
        jsToLower_eq_nil_iff] at h1
      simp [h1]
    · simp only [Bool.or_eq_true, decide_eq_true_eq,
        jsToLower_eq_nil_iff] at h1
      simp [h1]
  · intro hqne htne hinc
    have hq2 : jsToLower q ≠ [] := fun h => hqne ((jsToLower_eq_nil_iff q).mp h)
    have ht2 : jsToLower t ≠ [] := fun h => htne ((jsToLower_eq_nil_iff t).mp h)
    simp [scoreMatch, hq, ht, hq2, ht2, hinc]
  · intro hqne htne hinc
    have hq2 : jsToLower q ≠ [] := fun h => hqne ((jsToLower_eq_nil_iff q).mp h)
    have ht2 : jsToLower t ≠ [] := fun h => htne ((jsToLower_eq_nil_iff t).mp h)
    simp only [scoreMatch, hq, ht, hq2, ht2, hinc, Bool.or_eq_true,
      decide_eq_true_eq, or_self, if_false, Bool.false_eq_true]
    rw [levenshtein_jsToLower, jsToLower_length, Rat.mkRat_eq_div]
    push_cast
    rfl

/-- C2 fails as literally stated on untrimmed input: the candidate
`"x"` does not contain the query `" x "`, yet the score is `0`
(the code trims before the containment check), not the normalized edit
distance `2` that the claim's "otherwise" branch prescribes. -/
theorem C2_counterexample :
    (" x ".data ≠ ([] : Str)) ∧ ("x".data ≠ ([] : Str)) ∧
    listIncludes (jsToLower "x".data) (jsToLower " x ".data) = false ∧
    scoreMatch " x ".data "x".data ≠
      some ((levenshtein " x ".data "x".data : ℚ) /
        (max ("x".data.length) 1 : ℚ)) := by
  refine ⟨by decide, by decide, by decide, ?_⟩
  have h1 : scoreMatch " x ".data "x".data = some 0 := by decide
  have h2 : levenshtein " x ".data "x".data = 2 := by decide
  have h3 : "x".data.length = 1 := by decide
  rw [h1, h2, h3]
  intro hc
  injection hc with h4
  norm_num at h4

theorem C2_score_formula_on_trimmed_witness :
    jsTrim "ab".data = "ab".data ∧ jsTrim "cd".data = "cd".data ∧
    scoreMatch "ab".data "cd".data =
      some ((levenshtein "ab".data "cd".data : ℚ) /
        (max ("cd".data.length) 1 : ℚ)) :=
  ⟨by decide, by decide,
    (C2_score_formula_on_trimmed "ab".data "cd".data (by decide)
        (by decide)).2.2 (by decide) (by decide) (by decide)⟩

/-!
Empty and whitespace-only queries (claim C10).
-/

/-- C10: a query that is empty or all whitespace yields no live
suggestions, and the score function treats a whitespace-only query or
candidate as empty, returning `Infinity`. -/
theorem C10_blank_query_no_suggestions :
    (∀ (query : Str) (trending : List Meal)
      (cats ars keys : List Str), jsTrim query = [] →
      getSuggestions query trending cats ars keys = []) ∧
    (∀ q t : Str, jsTrim q = [] ∨ jsTrim t = [] →
      scoreMatch q t = none) := by
  constructor
  · intro query trending cats ars keys h
    simp [getSuggestions, h]
  · intro q t h
    rcases h with h | h <;> simp [scoreMatch, h, jsToLower]

theorem C10_blank_query_no_suggestions_witness :
    jsTrim "  ".data = [] ∧
    getSuggestions "  ".data [] [] [] [] = [] ∧
    scoreMatch " ".data "abc".data = none :=
  ⟨by decide,
    C10_blank_query_no_suggestions.1 "  ".data [] [] [] [] (by decide),
    C10_blank_query_no_suggestions.2 " ".data "abc".data (Or.inl (by decide))⟩

/-!
Set intersection (claim C1).
-/

theorem intersectById_nil : intersectById [] = [] := rfl

theorem intersectById_single (L : List Meal) : intersectById [L] = L := rfl

theorem intersectById_pair (L1 L2 : List Meal) :
    intersectById [L1, L2] =
      L1.filter (fun m => (L2.map Meal.idMeal).contains m.idMeal) := rfl

/-- C1 (amended): the empty and singleton cases are as claimed, and for
two lists whose first list has pairwise-distinct ids (as the lists
returned by the filter endpoints do), the intersection keeps exactly
the records of the first list whose id also occurs in the second, in
the first list's order, each id once.  (If the first list repeats an
id, the repetition survives; see `C1_counterexample`.) -/
theorem C1_intersect_semantics :
    (intersectById [] = []) ∧
    (∀ L : List Meal, intersectById [L] = L) ∧
    (∀ L1 L2 : List Meal, (L1.map Meal.idMeal).Nodup →
      (intersectById [L1, L2]).Sublist L1 ∧
      (∀ i : Str, i ∈ (intersectById [L1, L2]).map Meal.idMeal ↔
        (i ∈ L1.map Meal.idMeal ∧ i ∈ L2.map Meal.idMeal)) ∧
      ((intersectById [L1, L2]).map Meal.idMeal).Nodup) := by
  refine ⟨rfl, fun L => rfl, fun L1 L2 hnd => ⟨?_, ?_, ?_⟩⟩
  · rw [intersectById_pair]
    exact List.filter_sublist L1
  · intro i
    rw [intersectById_pair]
    constructor
    · intro hi
      rcases List.mem_map.mp hi with ⟨m, hm, hmi⟩
      rcases List.mem_filter.mp hm with ⟨hmL1, hmp⟩
      refine ⟨hmi ▸ List.mem_map_of_mem Meal.idMeal hmL1, ?_⟩
      rw [← hmi]
      exact List.mem_of_elem_eq_true hmp
    · rintro ⟨h1, h2⟩
      rcases List.mem_map.mp h1 with ⟨m, hm, hmi⟩
      refine List.mem_map.mpr ⟨m, List.mem_filter.mpr ⟨hm, ?_⟩, hmi⟩
      exact List.elem_eq_true_of_mem (hmi ▸ h2)
  · rw [intersectById_pair]
    exact List.Nodup.sublist
      (List.Sublist.map Meal.idMeal (List.filter_sublist L1)) hnd

/-- C1 fails as literally stated when the first list repeats an id:
both records with id "1" are kept, so the id appears twice in the
result rather than once. -/
theorem C1_counterexample :
    intersectById
        [[⟨"1".data, "a".data⟩, ⟨"1".data, "b".data⟩],
          [⟨"1".data, "c".data⟩]] =
      [⟨"1".data, "a".data⟩, ⟨"1".data, "b".data⟩] ∧
    ¬ ((intersectById
        [[⟨"1".data, "a".data⟩, ⟨"1".data, "b".data⟩],
          [⟨"1".data, "c".data⟩]]).map Meal.idMeal).Nodup := by
  constructor <;> decide

theorem C1_intersect_semantics_witness :
    (([⟨"1".data, "a".data⟩, ⟨"2".data, "b".data⟩] :
        List Meal).map Meal.idMeal).Nodup ∧
    (intersectById [[⟨"1".data, "a".data⟩, ⟨"2".data, "b".data⟩],
        [⟨"2".data, "c".data⟩, ⟨"3".data, "d".data⟩]]).Sublist
      [⟨"1".data, "a".data⟩, ⟨"2".data, "b".data⟩] ∧
    ("2".data ∈ (intersectById
        [[⟨"1".data, "a".data⟩, ⟨"2".data, "b".data⟩],
          [⟨"2".data, "c".data⟩, ⟨"3".data, "d".data⟩]]).map Meal.idMeal ↔
      ("2".data ∈ ([⟨"1".data, "a".data⟩, ⟨"2".data, "b".data⟩] :
          List Meal).map Meal.idMeal ∧
        "2".data ∈ ([⟨"2".data, "c".data⟩, ⟨"3".data, "d".data⟩] :
          List Meal).map Meal.idMeal)) ∧
    ((intersectById [[⟨"1".data, "a".data⟩, ⟨"2".data, "b".data⟩],
        [⟨"2".data, "c".data⟩, ⟨"3".data, "d".data⟩]]).map
      Meal.idMeal).Nodup := by
  have h := C1_intersect_semantics.2.2
    [⟨"1".data, "a".data⟩, ⟨"2".data, "b".data⟩]
    [⟨"2".data, "c".data⟩, ⟨"3".data, "d".data⟩] (by decide)
  exact ⟨by decide, h.1, h.2.1 "2".data, h.2.2⟩

/-!
Cache behaviour of `fetchListCached` (claim C6).
-/

theorem Cache.store_setStore (c : Cache) (k : FetchKind)
    (s : List (Str × List Meal)) : (c.setStore k s).store k = s := by
  cases k <;> rfl

theorem lookup_append_singleton {α : Type} (m : List (Str × α)) (k : Str)
    (v : α) (h : m.lookup k = none) : (m ++ [(k, v)]).lookup k = some v := by
  induction m with
  | nil => simp [List.lookup]
  | cons p m ih =>
    rcases p with ⟨a, b⟩
    by_cases hk : k == a
    · simp [List.lookup, hk] at h
    · simp only [List.cons_append, List.lookup, hk] at h ⊢
      exact ih h

/-- Storing on a miss appends the new entry. -/
theorem mapSet_of_lookup_none {α : Type} (m : List (Str × α)) (k : Str)
    (v : α) (h : m.lookup k = none) : mapSet m k v = m ++ [(k, v)] := by
  simp [mapSet, h]

/-- C6: on a hit the cached fetch returns the stored value with no
network request; on a miss it requests once, stores the result only on
success, and a failure leaves the cache unchanged (entry absent), so
the next call for the same key issues the request again, while after a
success the next call is a hit with no request. -/
theorem C6_cached_fetch :
    (∀ (f : Fetcher) (kind : FetchKind) (key : Str) (c : Cache)
      (v : List Meal), (c.store kind).lookup key = some v →
      fetchListCached f kind key c = ⟨.ok v, c, []⟩) ∧
    (∀ (f : Fetcher) (kind : FetchKind) (key : Str) (c : Cache),
      (c.store kind).lookup key = none → f kind key = .error () →
      fetchListCached f kind key c = ⟨.error (), c, [(kind, key)]⟩) ∧
    (∀ (f : Fetcher) (kind : FetchKind) (key : Str) (c : Cache)
      (d : Option (List Meal)), (c.store kind).lookup key = none →
      f kind key = .ok d →
      (fetchListCached f kind key c).result = .ok (d.getD []) ∧
      (fetchListCached f kind key c).calls = [(kind, key)] ∧
      ((fetchListCached f kind key c).cache.store kind).lookup key =
        some (d.getD []) ∧
      fetchListCached f kind key (fetchListCached f kind key c).cache =
        ⟨.ok (d.getD []), (fetchListCached f kind key c).cache, []⟩) ∧
    (∀ (f : Fetcher) (kind : FetchKind) (key : Str) (c : Cache),
      (c.store kind).lookup key = none → f kind key = .error () →
      (fetchListCached f kind key c).cache = c ∧
      (fetchListCached f kind key
        (fetchListCached f kind key c).cache).calls = [(kind, key)]) := by
  have hhit : ∀ (f : Fetcher) (kind : FetchKind) (key : Str) (c : Cache)
      (v : List Meal), (c.store kind).lookup key = some v →
      fetchListCached f kind key c = ⟨.ok v, c, []⟩ := by
    intro f kind key c v h
    simp [fetchListCached, h]
  have herr : ∀ (f : Fetcher) (kind : FetchKind) (key : Str) (c : Cache),
      (c.store kind).lookup key = none → f kind key = .error () →
      fetchListCached f kind key c = ⟨.error (), c, [(kind, key)]⟩ := by
    intro f kind key c h hf
    simp [fetchListCached, h, hf]
  have hok : ∀ (f : Fetcher) (kind : FetchKind) (key : Str) (c : Cache)
      (d : Option (List Meal)), (c.store kind).lookup key = none →
      f kind key = .ok d →
      fetchListCached f kind key c =
        ⟨.ok (d.getD []),
          c.setStore kind (mapSet (c.store kind) key (d.getD [])),
          [(kind, key)]⟩ := by
    intro f kind key c d h hf
    simp [fetchListCached, h, hf]
  refine ⟨hhit, herr, ?_, ?_⟩
  · intro f kind key c d h hf
    have h1 := hok f kind key c d h hf
    have hstore : ((fetchListCached f kind key c).cache.store kind).lookup
        key = some (d.getD []) := by
      rw [h1]
      rw [Cache.store_setStore, mapSet_of_lookup_none _ _ _ h,
        lookup_append_singleton _ _ _ h]
    exact ⟨by rw [h1], by rw [h1], hstore,
      hhit f kind key (fetchListCached f kind key c).cache (d.getD []) hstore⟩
  · intro f kind key c h hf
    have h1 := herr f kind key c h hf
    constructor
    · rw [h1]
    · rw [h1]
      exact congrArg FetchOut.calls (herr f kind key c h hf)

theorem C6_cached_fetch_witness :
    ((Cache.empty.store FetchKind.ingredient).lookup "chicken".data =
      none) ∧
    (fetchListCached (fun _ _ => Except.ok (some []))
        FetchKind.ingredient "chicken".data Cache.empty).calls =
      [(FetchKind.ingredient, "chicken".data)] ∧
    fetchListCached (fun _ _ => Except.ok (some []))
        FetchKind.ingredient "chicken".data
        (fetchListCached (fun _ _ => Except.ok (some []))
          FetchKind.ingredient "chicken".data Cache.empty).cache =
      ⟨.ok [],
        (fetchListCached (fun _ _ => Except.ok (some []))
          FetchKind.ingredient "chicken".data Cache.empty).cache, []⟩ := by
  have h := C6_cached_fetch.2.2.1 (fun _ _ => Except.ok (some []))
    FetchKind.ingredient "chicken".data Cache.empty (some []) (by decide) rfl
  exact ⟨by decide, h.2.1, h.2.2.2⟩

/-!
Properties of the suggestion list (claim C9).
-/

/-- Every scored record carries the score of its own string. -/
theorem mem_scored_snd (query : Str) (src : List Str)
    (p : Str × Option ℚ)
    (hp : p ∈ src.map (fun s => (s, scoreMatch query s))) :
    p.2 = scoreMatch query p.1 := by
  rcases List.mem_map.mp hp with ⟨s, _, hs⟩
  rw [← hs]

/-- The scored-then-filtered candidate list is the filtered pool,
scored. -/
theorem scored_filter_eq (query : Str) (src : List Str) :
    (src.map (fun s => (s, scoreMatch query s))).filter
        (fun x => x.2.isSome) =
      (src.filter (fun s => (scoreMatch query s).isSome)).map
        (fun s => (s, scoreMatch query s)) := by
  induction src with
  | nil => rfl
  | cons s rest ih =>
    by_cases h : (scoreMatch query s).isSome <;>
      simp [List.filter_cons, h, ih]

/-- C9: the live-suggestion list has at most 6 entries, every entry
comes from the pool, entries with a non-finite score are discarded,
the entries are in non-decreasing score order, and the underlying sort
is stable: candidates in pool order whose scores do not force a swap
(in particular, ties) keep their relative order in the sorted
candidate list whose 6-prefix is returned. -/
theorem C9_suggest_properties (query : Str) (src : List Str) :
    (getSuggestionsFrom query src).length ≤ 6 ∧
    (∀ s ∈ getSuggestionsFrom query src, s ∈ src) ∧
    (∀ s ∈ getSuggestionsFrom query src, (scoreMatch query s).isSome) ∧
    (getSuggestionsFrom query src).Pairwise
      (fun a b => scoreLE (scoreMatch query a) (scoreMatch query b) = true) ∧
    (∀ a b : Str,
      [a, b].Sublist (src.filter (fun s => (scoreMatch query s).isSome)) →
      scoreLE (scoreMatch query a) (scoreMatch query b) = true →
      [a, b].Sublist ((List.insertionSort pairLE
        ((src.map (fun s => (s, scoreMatch query s))).filter
          (fun x => x.2.isSome))).map Prod.fst)) := by
  have hmem_sorted : ∀ p, p ∈ List.insertionSort pairLE
      ((src.map (fun s => (s, scoreMatch query s))).filter
        (fun x => x.2.isSome)) →
      p ∈ src.map (fun s => (s, scoreMatch query s)) ∧ p.2.isSome := by
    intro p hp
    have h1 := (List.perm_insertionSort pairLE _).mem_iff.mp hp
    exact ⟨List.mem_of_mem_filter h1, by
      have := List.of_mem_filter h1
      simpa using this⟩
  have hmem_r : ∀ s ∈ getSuggestionsFrom query src,
      s ∈ src ∧ (scoreMatch query s).isSome := by
    intro s hs
    rcases List.mem_map.mp hs with ⟨p, hp, hps⟩
    have hp2 : p ∈ List.insertionSort pairLE
        ((src.map (fun t => (t, scoreMatch query t))).filter
          (fun x => x.2.isSome)) := List.mem_of_mem_take hp
    rcases hmem_sorted p hp2 with ⟨hmap, hsome⟩
    rcases List.mem_map.mp hmap with ⟨t, htsrc, htp⟩
    have hts : t = s := by rw [← hps, ← htp]
    subst hts
    constructor
    · exact htsrc
    · have : p.2 = scoreMatch query p.1 := by rw [← htp]
      rw [← hps, ← this]
      exact hsome
  refine ⟨?_, fun s hs => (hmem_r s hs).1, fun s hs => (hmem_r s hs).2,
    ?_, ?_⟩
  · calc (getSuggestionsFrom query src).length
        = ((List.insertionSort pairLE _).take 6).length := by
          rw [getSuggestionsFrom, List.length_map]
      _ ≤ 6 := by
          rw [List.length_take]
          exact min_le_left _ _
  · have hsorted : (List.insertionSort pairLE
        ((src.map (fun s => (s, scoreMatch query s))).filter
          (fun x => x.2.isSome))).Pairwise pairLE :=
      List.sorted_insertionSort pairLE _
    have htake : ((List.insertionSort pairLE
        ((src.map (fun s => (s, scoreMatch query s))).filter
          (fun x => x.2.isSome))).take 6).Pairwise pairLE :=
      hsorted.sublist (List.take_sublist 6 _)
    rw [getSuggestionsFrom]
    rw [List.pairwise_map]
    refine htake.imp_of_mem ?_
    intro p p' hp hp'
    have h1 := mem_scored_snd query src p
      (hmem_sorted p (List.mem_of_mem_take hp)).1
    have h2 := mem_scored_snd query src p'
      (hmem_sorted p' (List.mem_of_mem_take hp')).1
    intro hle
    rw [pairLE, h1, h2] at hle
    exact hle
  · intro a b hab hle
    have hmap : [(a, scoreMatch query a), (b, scoreMatch query b)].Sublist
        ((src.map (fun s => (s, scoreMatch query s))).filter
          (fun x => x.2.isSome)) := by
      rw [scored_filter_eq]
      exact hab.map (fun s => (s, scoreMatch query s))
    have hpair : pairLE (a, scoreMatch query a) (b, scoreMatch query b) :=
      hle
    have hs := List.pair_sublist_insertionSort hpair hmap
    have := hs.map Prod.fst
    simpa using this

theorem C9_suggest_properties_witness :
    (getSuggestionsFrom "pa".data ["pasta".data, "rice".data]).length ≤ 6 ∧
    "pasta".data ∈ (["pasta".data, "rice".data] : List Str) ∧
    (scoreMatch "pa".data "pasta".data).isSome ∧
    ["pasta".data, "rice".data].Sublist
      ((List.insertionSort pairLE
        ((["pasta".data, "rice".data].map
          (fun s => (s, scoreMatch "pa".data s))).filter
          (fun x => x.2.isSome))).map Prod.fst) := by
  have h := C9_suggest_properties "pa".data ["pasta".data, "rice".data]
  refine ⟨h.1, h.2.1 "pasta".data (by decide),
    h.2.2.1 "pasta".data (by decide),
    h.2.2.2.2 "pasta".data "rice".data (by decide) (by decide)⟩

/-!
Shape of the orchestrator's outcome.
-/

theorem publishPhase_published (inp : SearchIn) (c : Cache)
    (calls : List (FetchKind × Str)) (lists : List (List Meal)) :
    (publishPhase inp c calls lists).published =
      some (dedupeById (combineLists lists inp.trending)) := by
  simp only [publishPhase]
  repeat' split
  all_goals rfl

theorem publishPhase_cache (inp : SearchIn) (c : Cache)
    (calls : List (FetchKind × Str)) (lists : List (List Meal)) :
    (publishPhase inp c calls lists).cache = c := by
  simp only [publishPhase]
  repeat' split
  all_goals rfl

theorem publishPhase_calls (inp : SearchIn) (c : Cache)
    (calls : List (FetchKind × Str)) (lists : List (List Meal)) :
    (publishPhase inp c calls lists).calls = calls := by
  simp only [publishPhase]
  repeat' split
  all_goals rfl

/-- Every request a successful `fetchListCached` call issued got an
`ok` answer from the network. -/
theorem fetchListCached_calls_ok (f : Fetcher) (kind : FetchKind)
    (key : Str) (c : Cache) (v : List Meal)
    (h : (fetchListCached f kind key c).result = .ok v) :
    ∀ p ∈ (fetchListCached f kind key c).calls,
      ∃ d, f p.1 p.2 = Except.ok d := by
  intro p hp
  rcases hl : (c.store kind).lookup key with _ | v0
  · rcases hf : f kind key with e | d
    · simp [fetchListCached, hl, hf] at h
    · simp only [fetchListCached, hl, hf] at hp
      simp at hp
      subst hp
      exact ⟨d, hf⟩
  · simp [fetchListCached, hl] at hp


/-- Every request a successful ingredient-fetch phase issued got an
`ok` answer from the network. -/
theorem fetchIngredientLists_calls_ok (f : Fetcher) :
    ∀ (keys : List Str) (c : Cache) (ls : List (List Meal)) (c2 : Cache)
      (n : List (FetchKind × Str)),
      fetchIngredientLists f keys c = (.ok ls, c2, n) →
      ∀ p ∈ n, ∃ d, f p.1 p.2 = Except.ok d := by
  intro keys
  induction keys with
  | nil =>
    intro c ls c2 n h p hp
    simp only [fetchIngredientLists, Prod.mk.injEq] at h
    rw [← h.2.2] at hp
    simp at hp
  | cons k rest ih =>
    intro c ls c2 n h p hp
    rw [fetchIngredientLists] at h
    rcases hr : (fetchListCached f .ingredient k c).result with e | v
    · rw [hr] at h
      simp at h
    · rw [hr] at h
      rcases h2 : fetchIngredientLists f rest
          (fetchListCached f .ingredient k c).cache with ⟨res, cx, nx⟩
      rw [h2] at h
      cases res with
      | error e => simp at h
      | ok vs =>
        simp only [Prod.mk.injEq, Except.ok.injEq] at h
        rw [← h.2.2] at hp
        rcases List.mem_append.mp hp with hp1 | hp2
        · exact fetchListCached_calls_ok f .ingredient k c v hr p hp1
        · exact ih _ _ _ _ h2 p hp2

/-- Every `handleSearch` outcome is either the generic failure (nothing
published, all partial results discarded) or the publish phase applied
to the lists the successfully-settled fetches produced; in the latter
case every logged network request was answered `ok`. -/
theorem handleSearch_shape (f : Fetcher) (inp : SearchIn) (c : Cache) :
    (∃ c1 n1, handleSearch f inp c = ⟨none, failMsg, c1, n1⟩) ∨
    (∃ lists c1 n1, handleSearch f inp c = publishPhase inp c1 n1 lists ∧
      ∀ p ∈ n1, ∃ d, f p.1 p.2 = Except.ok d) := by
  simp only [handleSearch]
  split
  case _ e c1 n1 heq =>
    exact Or.inl ⟨c1, n1, rfl⟩
  case _ lists0 c1 n1 heq =>
    have hn1 : ∀ p ∈ n1, ∃ d, f p.1 p.2 = Except.ok d := by
      by_cases hing : (searchIngredients inp.queryTerm).isEmpty
      · rw [if_pos hing] at heq
        simp only [Prod.mk.injEq] at heq
        rw [← heq.2.2]
        intro p hp
        simp at hp
      · rw [if_neg hing] at heq
        rcases h2 : fetchIngredientLists f
            ((searchIngredients inp.queryTerm).map jsToLower) c
          with ⟨res, cx, nx⟩
        rw [h2] at heq
        cases res with
        | error e => simp at heq
        | ok ls =>
          simp only [Prod.mk.injEq, Except.ok.injEq] at heq
          rw [← heq.2.2]
          exact fetchIngredientLists_calls_ok f _ _ _ _ _ h2
    clear heq
    split
    case _ e c2 n2 heq2 =>
      exact Or.inl ⟨c2, n2, rfl⟩
    case _ lists1 c2 n2 heq2 =>
      have hn2 : ∀ p ∈ n2, ∃ d, f p.1 p.2 = Except.ok d := by
        by_cases hcat : inp.selectedCategory.isEmpty
        · rw [if_pos hcat] at heq2
          simp only [Prod.mk.injEq] at heq2
          rw [← heq2.2.2]
          exact hn1
        · rw [if_neg hcat] at heq2
          rcases hr : (fetchListCached f .category inp.selectedCategory
              c1).result with e | v
          · rw [hr] at heq2
            simp at heq2
          · rw [hr] at heq2
            simp only [Prod.mk.injEq, Except.ok.injEq] at heq2
            rw [← heq2.2.2]
            intro p hp
            rcases List.mem_append.mp hp with hp1 | hp2
            · exact hn1 p hp1
            · exact fetchListCached_calls_ok f .category
                inp.selectedCategory c1 v hr p hp2
      clear heq2 hn1
      split
      case _ e c3 n3 heq3 =>
        exact Or.inl ⟨c3, n3, rfl⟩
      case _ lists c3 n3 heq3 =>
        have hn3 : ∀ p ∈ n3, ∃ d, f p.1 p.2 = Except.ok d := by
          by_cases har : inp.selectedArea.isEmpty
          · rw [if_pos har] at heq3
            simp only [Prod.mk.injEq] at heq3
            rw [← heq3.2.2]
            exact hn2
          · rw [if_neg har] at heq3
            rcases hr : (fetchListCached f .area inp.selectedArea
                c2).result with e | v
            · rw [hr] at heq3
              simp at heq3
            · rw [hr] at heq3
              simp only [Prod.mk.injEq, Except.ok.injEq] at heq3
              rw [← heq3.2.2]
              intro p hp
              rcases List.mem_append.mp hp with hp1 | hp2
              · exact hn2 p hp1
              · exact fetchListCached_calls_ok f .area
                  inp.selectedArea c2 v hr p hp2
        exact Or.inr ⟨lists, c3, n3, rfl, hn3⟩

/-!
Failure handling (claim C7).
-/

/-- C7: if any network request issued during a search fails, the
search settles in `Failed` with the generic retry message and nothing
is published -- the displayed result list is not updated, so no partial
result from already-completed steps is shown. -/
theorem C7_failure_publishes_nothing (f : Fetcher) (inp : SearchIn)
    (c : Cache)
    (h : ∃ p ∈ (handleSearch f inp c).calls,
      f p.1 p.2 = Except.error ()) :
    (handleSearch f inp c).published = none ∧
    (handleSearch f inp c).errorMsg = failMsg ∧
    stateOf (handleSearch f inp c) = SearchState.Failed := by
  rcases handleSearch_shape f inp c with ⟨c1, n1, hEq⟩ |
    ⟨lists, c1, n1, hEq, hok⟩
  · rw [hEq]
    exact ⟨rfl, rfl, rfl⟩
  · exfalso
    rcases h with ⟨p, hp, herrp⟩
    rw [hEq, publishPhase_calls] at hp
    rcases hok p hp with ⟨d, hd⟩
    rw [herrp] at hd
    exact Except.noConfusion hd

/-- A fetcher that fails for the ingredient `"garlic"` and succeeds
otherwise. -/
def failingFetcher : Fetcher := fun _ k =>
  if k = "garlic".data then .error () else .ok (some [])

/-- A search for the two ingredients `"chicken, garlic"`. -/
def twoIngredientIn : SearchIn :=
  ⟨"chicken, garlic".data, [], [], [], [], []⟩

theorem C7_failure_publishes_nothing_witness :
    (∃ p ∈ (handleSearch failingFetcher twoIngredientIn
        Cache.empty).calls,
      failingFetcher p.1 p.2 = Except.error ()) ∧
    (handleSearch failingFetcher twoIngredientIn Cache.empty).published =
      none ∧
    (handleSearch failingFetcher twoIngredientIn Cache.empty).errorMsg =
      failMsg ∧
    stateOf (handleSearch failingFetcher twoIngredientIn Cache.empty) =
      SearchState.Failed := by
  have hex : ∃ p ∈ (handleSearch failingFetcher twoIngredientIn
      Cache.empty).calls, failingFetcher p.1 p.2 = Except.error () := by
    decide
  exact ⟨hex, C7_failure_publishes_nothing failingFetcher twoIngredientIn
    Cache.empty hex⟩

/-!
Deduplication lemmas, for the combine step (claim C3).
-/

theorem lookup_append_none {α : Type} (l1 l2 : List (Str × α)) (k : Str)
    (h1 : l1.lookup k = none) (h2 : l2.lookup k = none) :
    (l1 ++ l2).lookup k = none := by
  induction l1 with
  | nil =>
    rw [List.nil_append]
    exact h2
  | cons p l ih =>
    rcases p with ⟨a, b⟩
    by_cases hk : k == a
    · simp [List.lookup, hk] at h1
    · simp only [List.cons_append, List.lookup, hk] at h1 ⊢
      exact ih h1

theorem foldl_mapSet_append (l : List Meal) :
    ∀ (acc : List (Str × Meal)),
      (l.map Meal.idMeal).Nodup →
      (∀ m ∈ l, acc.lookup m.idMeal = none) →
      l.foldl (fun m mm => mapSet m mm.idMeal mm) acc =
        acc ++ l.map (fun m => (m.idMeal, m)) := by
  induction l with
  | nil =>
    intro acc _ _
    simp
  | cons m rest ih =>
    intro acc hnd hdisj
    have hm : acc.lookup m.idMeal = none :=
      hdisj m (List.mem_cons_self m rest)
    have hnotin : m.idMeal ∉ rest.map Meal.idMeal := by
      have := hnd
      rw [List.map_cons, List.nodup_cons] at this
      exact this.1
    simp only [List.foldl_cons]
    rw [mapSet_of_lookup_none _ _ _ hm]
    rw [ih (acc ++ [(m.idMeal, m)])
      (by rw [List.map_cons, List.nodup_cons] at hnd; exact hnd.2)
      ?_]
    · simp
    · intro m2 hm2
      apply lookup_append_none
      · exact hdisj m2 (List.mem_cons_of_mem _ hm2)
      · have hne : ¬ (m2.idMeal == m.idMeal) = true := by
          intro hc
          apply hnotin
          have : m2.idMeal = m.idMeal := by
            exact eq_of_beq hc
          rw [← this]
          exact List.mem_map_of_mem Meal.idMeal hm2
        simp [List.lookup, hne]

/-- Deduplication is the identity on a list with pairwise-distinct
ids. -/
theorem dedupeById_of_nodup (l : List Meal)
    (h : (l.map Meal.idMeal).Nodup) : dedupeById l = l := by
  rw [dedupeById, foldl_mapSet_append l [] h (fun m _ => rfl)]
  simp [List.map_map, Function.comp_def]

theorem foldl_mapSet_length_le (l : List Meal) :
    ∀ acc : List (Str × Meal),
      acc.length ≤
        (l.foldl (fun m mm => mapSet m mm.idMeal mm) acc).length := by
  induction l with
  | nil =>
    intro acc
    simp
  | cons m rest ih =>
    intro acc
    simp only [List.foldl_cons]
    refine le_trans ?_ (ih (mapSet acc m.idMeal m))
    rw [mapSet]
    split
    · simp
    · simp

theorem dedupeById_eq_nil_iff (l : List Meal) :
    dedupeById l = [] ↔ l = [] := by
  constructor
  · intro h
    cases l with
    | nil => rfl
    | cons m rest =>
      exfalso
      have h1 := foldl_mapSet_length_le rest (mapSet [] m.idMeal m)
      have h2 : (mapSet ([] : List (Str × Meal)) m.idMeal m).length = 1 :=
        rfl
      rw [dedupeById] at h
      simp only [List.foldl_cons] at h
      have h3 := congrArg List.length h
      rw [List.length_map, List.length_nil] at h3
      rw [h2] at h1
      omega
  · intro h
    rw [h]
    rfl

/-!
The combine step (claim C3).
-/

/-- With no ingredient terms, no category and no area, the search
performs no fetch and goes straight to the publish phase with zero
filter lists. -/
theorem handleSearch_no_filters (f : Fetcher) (inp : SearchIn) (c : Cache)
    (h1 : searchIngredients inp.queryTerm = [])
    (h2 : inp.selectedCategory = []) (h3 : inp.selectedArea = []) :
    handleSearch f inp c = publishPhase inp c [] [] := by
  simp [handleSearch, h1, h2, h3]

/-- C3 (amended): zero filter lists fall back to the trending set, one
list is used directly, several lists are intersected (the
ingredient-combined list enters this reduction as one list), and the
combined result is deduplicated by id before being published.  In the
zero-list case the published list is the deduplicated trending set --
the trending set itself, as its construction already deduplicates by
id -- and the state is `Succeeded` exactly when the trending set is
non-empty (an empty trending set makes the search fall into the
empty-result flow instead; see `C3_counterexample`). -/
theorem C3_combine_step :
    (∀ tr : List Meal, combineLists [] tr = tr) ∧
    (∀ (l : List Meal) (tr : List Meal), combineLists [l] tr = l) ∧
    (∀ (l1 l2 : List Meal) (ls : List (List Meal)) (tr : List Meal),
      combineLists (l1 :: l2 :: ls) tr = intersectById (l1 :: l2 :: ls)) ∧
    (∀ (f : Fetcher) (inp : SearchIn) (c : Cache),
      (handleSearch f inp c).published = none ∨
      ∃ lists, (handleSearch f inp c).published =
        some (dedupeById (combineLists lists inp.trending))) ∧
    (∀ (f : Fetcher) (inp : SearchIn) (c : Cache),
      searchIngredients inp.queryTerm = [] → inp.selectedCategory = [] →
      inp.selectedArea = [] →
      (handleSearch f inp c).published =
        some (dedupeById inp.trending) ∧
      ((inp.trending.map Meal.idMeal).Nodup →
        (handleSearch f inp c).published = some inp.trending) ∧
      (stateOf (handleSearch f inp c) = SearchState.Succeeded ↔
        inp.trending ≠ [])) := by
  refine ⟨fun tr => rfl, fun l tr => rfl, fun l1 l2 ls tr => rfl, ?_, ?_⟩
  · intro f inp c
    rcases handleSearch_shape f inp c with ⟨c1, n1, hEq⟩ |
      ⟨lists, c1, n1, hEq, _⟩
    · left
      rw [hEq]
    · right
      exact ⟨lists, by rw [hEq, publishPhase_published]⟩
  · intro f inp c h1 h2 h3
    have hEq := handleSearch_no_filters f inp c h1 h2 h3
    have hpub : (handleSearch f inp c).published =
        some (dedupeById inp.trending) := by
      rw [hEq, publishPhase_published]
      rfl
    refine ⟨hpub, ?_, ?_⟩
    · intro hnd
      rw [hpub, dedupeById_of_nodup inp.trending hnd]
    · by_cases htr : inp.trending = []
      · have hdd : dedupeById inp.trending = [] :=
          (dedupeById_eq_nil_iff inp.trending).mpr htr
        constructor
        · intro hs
          exfalso
          rw [stateOf] at hs
          rw [hpub, hdd] at hs
          simp only [List.isEmpty_nil, if_true] at hs
          split at hs <;> exact SearchState.noConfusion hs
        · intro hne
          exact absurd htr hne
      · have hdd : dedupeById inp.trending ≠ [] := by
          intro hc
          exact htr ((dedupeById_eq_nil_iff inp.trending).mp hc)
        constructor
        · intro _
          exact htr
        · intro _
          rw [stateOf]
          rw [hpub]
          simp [List.isEmpty_iff, hdd]

/-- A network that always answers with an empty meal list. -/
def okFetcher : Fetcher := fun _ _ => .ok (some [])

/-- A network that always answers with one meal. -/
def okFetcherOne : Fetcher := fun _ _ => .ok (some [⟨"9".data, "m".data⟩])

/-- No filters at all, and an empty trending set. -/
def noFilterIn : SearchIn := ⟨[], [], [], [], [], []⟩

/-- C3 fails as literally stated when the trending set is empty: with
no filters the search does publish the trending set verbatim, but its
state is the empty-result flow (`EmptyNoSuggestion` here), not
`Succeeded`. -/
theorem C3_counterexample :
    (handleSearch okFetcher noFilterIn Cache.empty).published =
      some noFilterIn.trending ∧
    stateOf (handleSearch okFetcher noFilterIn Cache.empty) =
      SearchState.EmptyNoSuggestion ∧
    SearchState.EmptyNoSuggestion ≠ SearchState.Succeeded := by
  refine ⟨by decide, by decide, by decide⟩

/-- No filters, non-empty trending set. -/
def trendingIn : SearchIn := ⟨[], [], [], [⟨"1".data, "Pie".data⟩], [], []⟩

theorem C3_combine_step_witness :
    (handleSearch okFetcher trendingIn Cache.empty).published =
      some (dedupeById trendingIn.trending) ∧
    (handleSearch okFetcher trendingIn Cache.empty).published =
      some trendingIn.trending ∧
    stateOf (handleSearch okFetcher trendingIn Cache.empty) =
      SearchState.Succeeded := by
  have h := C3_combine_step.2.2.2.2 okFetcher trendingIn Cache.empty
    (by decide) (by decide) (by decide)
  exact ⟨h.1, h.2.1 (by decide), (h.2.2).mpr (by decide)⟩

/-!
The "did you mean" correction flow (claim C4).
-/

theorem mem_addUnique (acc : List Str) (x s : Str) :
    s ∈ addUnique acc x ↔ s ∈ acc ∨ s = x := by
  rw [addUnique]
  split
  case _ hx =>
    constructor
    · exact fun h => Or.inl h
    · rintro (h | rfl)
      · exact h
      · exact hx
  case _ hx =>
    simp

theorem mem_foldl_addUnique (l : List Str) :
    ∀ (acc : List Str) (s : Str),
      s ∈ l.foldl addUnique acc ↔ s ∈ acc ∨ s ∈ l := by
  induction l with
  | nil =>
    intro acc s
    simp
  | cons x rest ih =>
    intro acc s
    simp only [List.foldl_cons]
    rw [ih (addUnique acc x) s, mem_addUnique]
    constructor
    · rintro ((h | h) | h)
      · exact Or.inl h
      · exact Or.inr (h ▸ List.mem_cons_self x rest)
      · exact Or.inr (List.mem_cons_of_mem x h)
    · rintro (h | h)
      · exact Or.inl (Or.inl h)
      · rcases List.mem_cons.mp h with h | h
        · exact Or.inl (Or.inr h)
        · exact Or.inr h

theorem mem_dedupKeepFirst (l : List Str) (s : Str) :
    s ∈ dedupKeepFirst l ↔ s ∈ l := by
  rw [dedupKeepFirst, mem_foldl_addUnique]
  simp

/-- The suggestion pool always contains the fallback vocabulary, so it
is never empty. -/
theorem buildSourceList_ne_nil (trending : List Meal)
    (cats ars keys : List Str) :
    buildSourceList trending cats ars keys ≠ [] := by
  intro h
  have hmem : "biryani".data ∈ buildSourceList trending cats ars keys := by
    rw [buildSourceList, mem_dedupKeepFirst]
    simp [fallbackTerms]
  rw [h] at hmem
  exact List.not_mem_nil _ hmem

/-- The "did you mean" message never coincides with the generic
no-results message, whatever the query and candidate are. -/
theorem didYouMeanMsg_ne_noResultsMsg (q b : Str) :
    didYouMeanMsg q b ≠ noResultsMsg := by
  intro h
  have h5 := congrArg (fun l : Str => l[5]?) h
  simp only [didYouMeanMsg, noResultsMsg] at h5
  simp at h5

/-- On an empty deduplicated result, the publish phase runs the
correction flow over the ranked candidates. -/
theorem publishPhase_empty (inp : SearchIn) (c : Cache)
    (calls : List (FetchKind × Str)) (lists : List (List Meal))
    (hd : dedupeById (combineLists lists inp.trending) = []) :
    publishPhase inp c calls lists =
      match (rankedCandidates inp c).head? with
      | some best =>
        if scoreLt best.2 correctionThreshold &&
            !(jsToLower best.1 == jsToLower inp.queryTerm) then
          ⟨some [], didYouMeanMsg inp.queryTerm best.1, c, calls⟩
        else ⟨some [], noResultsMsg, c, calls⟩
      | none => ⟨some [], noResultsMsg, c, calls⟩ := by
  simp only [publishPhase, hd, List.isEmpty_nil, if_true]

/-- C4: after a search that published an empty deduplicated result,
the ranked-candidate list (pool scored against the raw free-text
query) has a head `best`; it carries the score of its string, comes
from the pool, and scores no worse than any pool candidate; the
"did you mean" message is surfaced if and only if that lowest-scoring
candidate scores strictly below the 0.4 threshold and is not
case-insensitively identical to the query; otherwise the generic
no-results message is shown. -/
theorem C4_correction_iff (f : Fetcher) (inp : SearchIn) (c : Cache)
    (hempty : (handleSearch f inp c).published = some []) :
    ∃ best : Str × Option ℚ,
      (rankedCandidates inp (handleSearch f inp c).cache).head? =
        some best ∧
      best.2 = scoreMatch inp.queryTerm best.1 ∧
      best.1 ∈ searchPool inp (handleSearch f inp c).cache ∧
      (∀ s ∈ searchPool inp (handleSearch f inp c).cache,
        scoreLE best.2 (scoreMatch inp.queryTerm s) = true) ∧
      ((handleSearch f inp c).errorMsg =
          didYouMeanMsg inp.queryTerm best.1 ↔
        (scoreLt best.2 correctionThreshold = true ∧
          jsToLower best.1 ≠ jsToLower inp.queryTerm)) ∧
      ((handleSearch f inp c).errorMsg ≠
          didYouMeanMsg inp.queryTerm best.1 →
        (handleSearch f inp c).errorMsg = noResultsMsg) := by
  rcases handleSearch_shape f inp c with ⟨c1, n1, hEq⟩ |
    ⟨lists, c1, n1, hEq, _⟩
  · rw [hEq] at hempty
    exact absurd hempty (by simp)
  · have hcache : (handleSearch f inp c).cache = c1 := by
      rw [hEq, publishPhase_cache]
    have hdd : dedupeById (combineLists lists inp.trending) = [] := by
      have h0 := hempty
      rw [hEq, publishPhase_published] at h0
      exact Option.some.inj h0
    have hbr := publishPhase_empty inp c1 n1 lists hdd
    rw [hcache]
    have hperm := List.perm_insertionSort pairLE
      ((searchPool inp c1).map (fun s => (s, scoreMatch inp.queryTerm s)))
    have hsorted := List.sorted_insertionSort pairLE
      ((searchPool inp c1).map (fun s => (s, scoreMatch inp.queryTerm s)))
    cases hsc : rankedCandidates inp c1 with
    | nil =>
      exfalso
      have hlen := congrArg List.length hsc
      rw [rankedCandidates, List.length_insertionSort, List.length_map,
        List.length_nil] at hlen
      exact buildSourceList_ne_nil inp.trending inp.categories inp.areas
        (c1.ingredient.map Prod.fst) (List.eq_nil_of_length_eq_zero hlen)
    | cons best rest =>
      rw [rankedCandidates] at hsc
      rw [hsc] at hperm hsorted
      have hbestmem : best ∈ (searchPool inp c1).map
          (fun s => (s, scoreMatch inp.queryTerm s)) :=
        hperm.mem_iff.mp (List.mem_cons_self best rest)
      have hsnd : best.2 = scoreMatch inp.queryTerm best.1 := by
        rcases List.mem_map.mp hbestmem with ⟨s, _, hs⟩
        rw [← hs]
      have hfst : best.1 ∈ searchPool inp c1 := by
        rcases List.mem_map.mp hbestmem with ⟨s, hssrc, hs⟩
        have : best.1 = s := by rw [← hs]
        rw [this]
        exact hssrc
      have hmin : ∀ s ∈ searchPool inp c1,
          scoreLE best.2 (scoreMatch inp.queryTerm s) = true := by
        intro s hs
        have hsmem : (s, scoreMatch inp.queryTerm s) ∈ best :: rest :=
          hperm.mem_iff.mpr
            (List.mem_map_of_mem (fun t => (t, scoreMatch inp.queryTerm t)) hs)
        rcases List.mem_cons.mp hsmem with h | h
        · rw [← h]
          exact scoreLE_refl _
        · exact List.rel_of_pairwise_cons hsorted h
      have hmsg : (handleSearch f inp c).errorMsg =
          if scoreLt best.2 correctionThreshold &&
              !(jsToLower best.1 == jsToLower inp.queryTerm) then
            didYouMeanMsg inp.queryTerm best.1
          else noResultsMsg := by
        rw [hEq, hbr]
        have hranked : rankedCandidates inp c1 = best :: rest := hsc
        rw [hranked]
        by_cases hc : (scoreLt best.2 correctionThreshold &&
            !(jsToLower best.1 == jsToLower inp.queryTerm)) = true
        · rw [if_pos hc]
          simp only [List.head?_cons, hc, if_true]
        · rw [if_neg hc]
          simp only [List.head?_cons, hc]
          rfl
      refine ⟨best, ?_, hsnd, hfst, hmin, ?_, ?_⟩
      · rfl
      · rw [hmsg]
        by_cases hc : (scoreLt best.2 correctionThreshold &&
            !(jsToLower best.1 == jsToLower inp.queryTerm)) = true
        · rw [if_pos hc]
          simp only [Bool.and_eq_true, Bool.not_eq_eq_eq_not,
            Bool.not_true, beq_eq_false_iff_ne] at hc
          simp [hc.1, hc.2]
        · rw [if_neg hc]
          constructor
          · intro h
            exact absurd h.symm (didYouMeanMsg_ne_noResultsMsg _ _)
          · rintro ⟨h1, h2⟩
            exfalso
            apply hc
            rw [Bool.and_eq_true, h1]
            refine ⟨rfl, ?_⟩
            simp only [Bool.not_eq_eq_eq_not, Bool.not_true,
              beq_eq_false_iff_ne]
            exact h2
      · intro hne
        rw [hmsg] at hne ⊢
        by_cases hc : (scoreLt best.2 correctionThreshold &&
            !(jsToLower best.1 == jsToLower inp.queryTerm)) = true
        · rw [if_pos hc] at hne
          exact absurd rfl hne
        · rw [if_neg hc]

/-- A query with zero matches whose pool still contains it as a
substring of a trending name (kept short so that the edit-distance
evaluations stay small). -/
def typoIn : SearchIn := ⟨"i".data, [], [], [⟨"7".data, "xi".data⟩], [], []⟩

theorem C4_correction_iff_witness :
    ∃ best : Str × Option ℚ,
      (rankedCandidates typoIn
        (handleSearch okFetcher typoIn Cache.empty).cache).head? =
        some best ∧
      best.2 = scoreMatch typoIn.queryTerm best.1 ∧
      best.1 ∈ searchPool typoIn
        (handleSearch okFetcher typoIn Cache.empty).cache ∧
      (∀ s ∈ searchPool typoIn
        (handleSearch okFetcher typoIn Cache.empty).cache,
        scoreLE best.2 (scoreMatch typoIn.queryTerm s) = true) ∧
      ((handleSearch okFetcher typoIn Cache.empty).errorMsg =
          didYouMeanMsg typoIn.queryTerm best.1 ↔
        (scoreLt best.2 correctionThreshold = true ∧
          jsToLower best.1 ≠ jsToLower typoIn.queryTerm)) ∧
      ((handleSearch okFetcher typoIn Cache.empty).errorMsg ≠
          didYouMeanMsg typoIn.queryTerm best.1 →
        (handleSearch okFetcher typoIn Cache.empty).errorMsg =
          noResultsMsg) :=
  C4_correction_iff okFetcher typoIn Cache.empty (by decide)

/-!
Which keys reach the cache and the network (claim C5).
-/

/-- A `fetchListCached` call only ever requests the `(kind, key)` pair
it was given. -/
theorem fetchListCached_calls_sub (f : Fetcher) (kind : FetchKind)
    (key : Str) (c : Cache) :
    ∀ p ∈ (fetchListCached f kind key c).calls, p = (kind, key) := by
  intro p hp
  rcases hl : (c.store kind).lookup key with _ | v0
  · rcases hf : f kind key with e | d
    · simp only [fetchListCached, hl, hf] at hp
      simpa using hp
    · simp only [fetchListCached, hl, hf] at hp
      simpa using hp
  · simp [fetchListCached, hl] at hp

/-- The ingredient-fetch phase only ever requests ingredient-kind pairs
with the keys it was given. -/
theorem fetchIngredientLists_calls_sub (f : Fetcher) :
    ∀ (keys : List Str) (c : Cache),
      ∀ p ∈ (fetchIngredientLists f keys c).2.2,
        ∃ k ∈ keys, p = (FetchKind.ingredient, k) := by
  intro keys
  induction keys with
  | nil =>
    intro c p hp
    simp [fetchIngredientLists] at hp
  | cons k rest ih =>
    intro c p hp
    rw [fetchIngredientLists] at hp
    rcases hr : (fetchListCached f .ingredient k c).result with e | v
    · rw [hr] at hp
      simp only at hp
      have := fetchListCached_calls_sub f .ingredient k c p hp
      exact ⟨k, List.mem_cons_self k rest, this⟩
    · rw [hr] at hp
      rcases h2 : fetchIngredientLists f rest
          (fetchListCached f .ingredient k c).cache with ⟨res, cx, nx⟩
      rw [h2] at hp
      have hnx : ∀ q ∈ nx, ∃ k2 ∈ rest, q = (FetchKind.ingredient, k2) := by
        intro q hq
        have := ih (fetchListCached f .ingredient k c).cache q
          (by rw [h2]; exact hq)
        rcases this with ⟨k2, hk2, hq2⟩
        exact ⟨k2, hk2, hq2⟩
      cases res with
      | error e =>
        simp only at hp
        rcases List.mem_append.mp hp with hp1 | hp2
        · exact ⟨k, List.mem_cons_self k rest,
            fetchListCached_calls_sub f .ingredient k c p hp1⟩
        · rcases hnx p hp2 with ⟨k2, hk2, hq2⟩
          exact ⟨k2, List.mem_cons_of_mem k hk2, hq2⟩
      | ok vs =>
        simp only at hp
        rcases List.mem_append.mp hp with hp1 | hp2
        · exact ⟨k, List.mem_cons_self k rest,
            fetchListCached_calls_sub f .ingredient k c p hp1⟩
        · rcases hnx p hp2 with ⟨k2, hk2, hq2⟩
          exact ⟨k2, List.mem_cons_of_mem k hk2, hq2⟩

/-- Every network request a search issues is either an ingredient
request for the lower-cased form of one of the query's ingredient
terms, or the category request with the selected category verbatim, or
the area request with the selected area verbatim. -/
theorem handleSearch_calls_sub (f : Fetcher) (inp : SearchIn) (c : Cache) :
    ∀ p ∈ (handleSearch f inp c).calls,
      (∃ k ∈ searchIngredients inp.queryTerm,
        p = (FetchKind.ingredient, jsToLower k)) ∨
      p = (FetchKind.category, inp.selectedCategory) ∨
      p = (FetchKind.area, inp.selectedArea) := by
  have hingr : ∀ (c0 : Cache) (p : FetchKind × Str),
      p ∈ (fetchIngredientLists f
        ((searchIngredients inp.queryTerm).map jsToLower) c0).2.2 →
      ∃ k ∈ searchIngredients inp.queryTerm,
        p = (FetchKind.ingredient, jsToLower k) := by
    intro c0 p hp
    rcases fetchIngredientLists_calls_sub f
      ((searchIngredients inp.queryTerm).map jsToLower) c0 p hp
      with ⟨k, hk, hpk⟩
    rcases List.mem_map.mp hk with ⟨k0, hk0, hkk⟩
    exact ⟨k0, hk0, by rw [hpk, hkk]⟩
  simp only [handleSearch]
  split
  case _ e c1 n1 heq =>
    intro p hp
    have hp1 : p ∈ n1 := hp
    by_cases hing : (searchIngredients inp.queryTerm).isEmpty
    · rw [if_pos hing] at heq
      simp at heq
    · rw [if_neg hing] at heq
      rcases h2 : fetchIngredientLists f
          ((searchIngredients inp.queryTerm).map jsToLower) c
        with ⟨res, cx, nx⟩
      rw [h2] at heq
      cases res with
      | error e2 =>
        simp only [Prod.mk.injEq] at heq
        rw [← heq.2.2] at hp1
        exact Or.inl (hingr c p (by rw [h2]; exact hp1))
      | ok ls => simp at heq
  case _ lists0 c1 n1 heq =>
    have hn1 : ∀ p ∈ n1,
        (∃ k ∈ searchIngredients inp.queryTerm,
          p = (FetchKind.ingredient, jsToLower k)) := by
      by_cases hing : (searchIngredients inp.queryTerm).isEmpty
      · rw [if_pos hing] at heq
        simp only [Prod.mk.injEq] at heq
        rw [← heq.2.2]
        intro p hp
        simp at hp
      · rw [if_neg hing] at heq
        rcases h2 : fetchIngredientLists f
            ((searchIngredients inp.queryTerm).map jsToLower) c
          with ⟨res, cx, nx⟩
        rw [h2] at heq
        cases res with
        | error e => simp at heq
        | ok ls =>
          simp only [Prod.mk.injEq, Except.ok.injEq] at heq
          rw [← heq.2.2]
          intro p hp
          exact hingr c p (by rw [h2]; exact hp)
    clear heq
    split
    case _ e c2 n2 heq2 =>
      intro p hp
      have hp1 : p ∈ n2 := hp
      by_cases hcat : inp.selectedCategory.isEmpty
      · rw [if_pos hcat] at heq2
        simp only [Prod.mk.injEq] at heq2
        rw [← heq2.2.2] at hp1
        exact Or.inl (hn1 p hp1)
      · rw [if_neg hcat] at heq2
        rcases hr : (fetchListCached f .category inp.selectedCategory
            c1).result with e2 | v
        · rw [hr] at heq2
          simp only [Prod.mk.injEq] at heq2
          rw [← heq2.2.2] at hp1
          rcases List.mem_append.mp hp1 with hpa | hpb
          · exact Or.inl (hn1 p hpa)
          · exact Or.inr (Or.inl
              (fetchListCached_calls_sub f .category
                inp.selectedCategory c1 p hpb))
        · rw [hr] at heq2
          simp at heq2
    case _ lists1 c2 n2 heq2 =>
      have hn2 : ∀ p ∈ n2,
          (∃ k ∈ searchIngredients inp.queryTerm,
            p = (FetchKind.ingredient, jsToLower k)) ∨
          p = (FetchKind.category, inp.selectedCategory) := by
        by_cases hcat : inp.selectedCategory.isEmpty
        · rw [if_pos hcat] at heq2
          simp only [Prod.mk.injEq] at heq2
          rw [← heq2.2.2]
          intro p hp
          exact Or.inl (hn1 p hp)
        · rw [if_neg hcat] at heq2
          rcases hr : (fetchListCached f .category inp.selectedCategory
              c1).result with e2 | v
          · rw [hr] at heq2
            simp at heq2
          · rw [hr] at heq2
            simp only [Prod.mk.injEq, Except.ok.injEq] at heq2
            rw [← heq2.2.2]
            intro p hp
            rcases List.mem_append.mp hp with hpa | hpb
            · exact Or.inl (hn1 p hpa)
            · exact Or.inr (fetchListCached_calls_sub f .category
                inp.selectedCategory c1 p hpb)
      clear heq2 hn1
      split
      case _ e c3 n3 heq3 =>
        intro p hp
        have hp1 : p ∈ n3 := hp
        by_cases har : inp.selectedArea.isEmpty
        · rw [if_pos har] at heq3
          simp only [Prod.mk.injEq] at heq3
          rw [← heq3.2.2] at hp1
          rcases hn2 p hp1 with h | h
          · exact Or.inl h
          · exact Or.inr (Or.inl h)
        · rw [if_neg har] at heq3
          rcases hr : (fetchListCached f .area inp.selectedArea
              c2).result with e2 | v
          · rw [hr] at heq3
            simp only [Prod.mk.injEq] at heq3
            rw [← heq3.2.2] at hp1
            rcases List.mem_append.mp hp1 with hpa | hpb
            · rcases hn2 p hpa with h | h
              · exact Or.inl h
              · exact Or.inr (Or.inl h)
            · exact Or.inr (Or.inr
                (fetchListCached_calls_sub f .area inp.selectedArea c2
                  p hpb))
          · rw [hr] at heq3
            simp at heq3
      case _ lists c3 n3 heq3 =>
        intro p hp
        rw [publishPhase_calls] at hp
        by_cases har : inp.selectedArea.isEmpty
        · rw [if_pos har] at heq3
          simp only [Prod.mk.injEq] at heq3
          rw [← heq3.2.2] at hp
          rcases hn2 p hp with h | h
          · exact Or.inl h
          · exact Or.inr (Or.inl h)
        · rw [if_neg har] at heq3
          rcases hr : (fetchListCached f .area inp.selectedArea
              c2).result with e2 | v
          · rw [hr] at heq3
            simp at heq3
          · rw [hr] at heq3
            simp only [Prod.mk.injEq, Except.ok.injEq] at heq3
            rw [← heq3.2.2] at hp
            rcases List.mem_append.mp hp with hpa | hpb
            · rcases hn2 p hpa with h | h
              · exact Or.inl h
              · exact Or.inr (Or.inl h)
            · exact Or.inr (Or.inr
                (fetchListCached_calls_sub f .area inp.selectedArea c2
                  p hpb))

/-- A single-ingredient search typed with a capital letter. -/
def capsChickenIn : SearchIn := ⟨"Chicken".data, [], [], [], [], []⟩

/-- The same search typed in lower case. -/
def lowerChickenIn : SearchIn := ⟨"chicken".data, [], [], [], [], []⟩

/-- C5 (amended): only the ingredient lookup key is lower-cased before
the cache lookup and store -- every ingredient network request uses the
lower-cased form of a query term (so "Chicken" and "chicken" hit the
same ingredient entry, demonstrated by the two sequential searches
below issuing exactly one request) -- while category and area keys are
passed verbatim as selected (see `C5_counterexample`). -/
theorem C5_cache_key_normalization :
    (∀ (f : Fetcher) (inp : SearchIn) (c : Cache),
      ∀ p ∈ (handleSearch f inp c).calls,
        (p.1 = FetchKind.ingredient →
          jsToLower p.2 = p.2 ∧
          ∃ k ∈ searchIngredients inp.queryTerm, p.2 = jsToLower k) ∧
        (p.1 = FetchKind.category → p.2 = inp.selectedCategory) ∧
        (p.1 = FetchKind.area → p.2 = inp.selectedArea)) ∧
    ((handleSearch okFetcherOne capsChickenIn Cache.empty).calls =
      [(FetchKind.ingredient, "chicken".data)] ∧
    (handleSearch okFetcherOne lowerChickenIn
      (handleSearch okFetcherOne capsChickenIn Cache.empty).cache).calls =
      []) := by
  constructor
  · intro f inp c p hp
    rcases handleSearch_calls_sub f inp c p hp with h | h | h
    · rcases h with ⟨k, hk, hpk⟩
      refine ⟨fun _ => ⟨?_, k, hk, by rw [hpk]⟩, fun hcat => ?_, fun har => ?_⟩
      · rw [hpk]
        exact jsToLower_idem k
      · rw [hpk] at hcat
        exact absurd hcat (by simp)
      · rw [hpk] at har
        exact absurd har (by simp)
    · refine ⟨fun hing => ?_, fun _ => by rw [h], fun har => ?_⟩
      · rw [h] at hing
        exact absurd hing (by simp)
      · rw [h] at har
        exact absurd har (by simp)
    · refine ⟨fun hing => ?_, fun hcat => ?_, fun _ => by rw [h]⟩
      · rw [h] at hing
        exact absurd hing (by simp)
      · rw [h] at hcat
        exact absurd hcat (by simp)
  · exact ⟨by decide, by decide⟩

/-- A category-only search with the dropdown value `"Beef"`. -/
def beefCapsIn : SearchIn := ⟨[], "Beef".data, [], [], [], []⟩

/-- A category-only search with the value `"beef"`. -/
def beefLowerIn : SearchIn := ⟨[], "beef".data, [], [], [], []⟩

/-- C5 fails as literally stated for the category (and likewise area)
kind: two sequential category searches that differ only in case miss
each other's cache entry -- each issues its own network request and the
store ends up with two differently-cased keys. -/
theorem C5_counterexample :
    (handleSearch okFetcher beefCapsIn Cache.empty).calls =
      [(FetchKind.category, "Beef".data)] ∧
    (handleSearch okFetcher beefLowerIn
        (handleSearch okFetcher beefCapsIn Cache.empty).cache).calls =
      [(FetchKind.category, "beef".data)] ∧
    ((handleSearch okFetcher beefLowerIn
        (handleSearch okFetcher beefCapsIn Cache.empty).cache).cache.category.map
      Prod.fst) = ["Beef".data, "beef".data] := by
  exact ⟨by decide, by decide, by decide⟩

theorem C5_cache_key_normalization_witness :
    jsToLower "chicken".data = "chicken".data ∧
    ∃ k ∈ searchIngredients capsChickenIn.queryTerm,
      ("chicken".data : Str) = jsToLower k := by
  have h := C5_cache_key_normalization.1 okFetcherOne capsChickenIn
    Cache.empty (FetchKind.ingredient, "chicken".data) (by decide)
  exact h.1 rfl

end RecipeFinder
